import Mathlib

/-!
Shallow embedding of the credential lifecycle manager and model-tier
resolver of the `antigravity-claude-proxy` repository.

Sources embedded:
* `src/cli/onboard.js`  — `ALL_MODELS`, `selectModelForTier` (the tier
  filter / stable sort / default pick), and the static fallback.
* `src/cli/refresh.js`  — `loadAccounts`, `saveAccounts`, `needsRefresh`,
  `refreshAccount`, `runRefresh`.

Modelling conventions:
* JavaScript values that may be `undefined`/`null` are `Option` values.
* Timestamps are integer milliseconds (`Int`); `Date.now()` becomes an
  explicit `now : Int` parameter, constant during a run.
* The external OAuth collaborator `refreshAccessToken` becomes a function
  parameter `exchange : String → ExchangeResult`; a thrown error is the
  `err` constructor.  `refreshAccount` additionally returns the number of
  calls made to the collaborator.
* File-system effects are explicit: `loadAccounts` is a function of an
  abstract `FileState`, and `runRefresh` records store writes (and the
  order of per-account processing) in an event trace.
* `Array.prototype.sort` is stable (ES2019).  The comparator used by
  `selectModelForTier` is a consistent total preorder (lexicographic on
  quota flag, family preference, tier rank), so its stable sort result is
  modelled by a stable insertion sort.
* `selectModelForTier` is interactive in the source; we model the
  non-interactive default path, where the user accepts the suggested
  `defaultIndex` (this is the `selectForTier` contract of the spec).
-/

/-- The three capability tiers the resolver is invoked with
(`TIER_INFO` keys in `onboard.js`). -/
inductive Tier
  | opus
  | sonnet
  | haiku
deriving DecidableEq, Repr

/-- The tier's name as the string used in model descriptors. -/
def Tier.name : Tier → String
  | .opus => "opus"
  | .sonnet => "sonnet"
  | .haiku => "haiku"

/-- Model descriptor (`onboard.js`).  `family` and `hasQuota` are absent on
the static fallback entries, hence `Option`.  `description` and
`remainingFraction` are display-only and not used by the selection logic,
so they are omitted from the embedding. -/
structure Model where
  id : String
  family : Option String := none
  tier : String
  hasQuota : Option Bool := none
deriving DecidableEq, Repr

/-- The static fallback catalog `ALL_MODELS` of `onboard.js` (ids, families
and tiers exactly as in the source; no `hasQuota` field there). -/
def ALL_MODELS : List Model :=
  [ { id := "claude-opus-4-5-thinking", family := some "claude", tier := "opus" },
    { id := "claude-sonnet-4-5-thinking", family := some "claude", tier := "sonnet" },
    { id := "claude-sonnet-4-5", family := some "claude", tier := "sonnet" },
    { id := "gemini-3-pro-high", family := some "gemini", tier := "opus" },
    { id := "gemini-3-pro-low", family := some "gemini", tier := "sonnet" },
    { id := "gemini-3-flash", family := some "gemini", tier := "sonnet" },
    { id := "gemini-2.5-flash-lite", family := some "gemini", tier := "haiku" } ]

/-- The rank table `const tierPriority = { opus: 3, sonnet: 2, haiku: 1 }`;
here `none` models a missing key. -/
def tierPriority (s : String) : Option Int :=
  if s = "opus" then some 3
  else if s = "sonnet" then some 2
  else if s = "haiku" then some 1
  else none

/-- The requested tier's rank, `const minTier = tierPriority[tier]` (the
requested tier is always one of the three `TIER_INFO` keys). -/
def minTier : Tier → Int
  | .opus => 3
  | .sonnet => 2
  | .haiku => 1

/-- The filter step of `selectModelForTier`:
`availableModels.filter(m => (tierPriority[m.tier] || 2) >= minTier - 1)`. -/
def suitableModels (t : Tier) (availableModels : List Model) : List Model :=
  availableModels.filter (fun m => (tierPriority m.tier).getD 2 ≥ minTier t - 1)

/-- The three-way comparator passed to `suitableModels.sort` in
`selectModelForTier`: quota first, then family preference (gemini first for
haiku, claude first otherwise), then descending tier rank
(`(tierPriority[b.tier] || 0) - (tierPriority[a.tier] || 0)`). -/
def modelCmp (t : Tier) (a b : Model) : Int :=
  if a.hasQuota ≠ b.hasQuota then
    (if a.hasQuota = some true then -1 else 1)
  else if t = .haiku then
    (if a.family ≠ b.family then (if a.family = some "gemini" then -1 else 1)
     else (tierPriority b.tier).getD 0 - (tierPriority a.tier).getD 0)
  else
    (if a.family ≠ b.family then (if a.family = some "claude" then -1 else 1)
     else (tierPriority b.tier).getD 0 - (tierPriority a.tier).getD 0)

/-- Stable insertion: `x` (which occurs later in the original list than
every element of the target list) is placed after every element strictly
smaller than it and before the first tie or greater element. -/
def stableInsert (lt : α → α → Bool) (x : α) : List α → List α
  | [] => [x]
  | y :: ys => if lt y x then y :: stableInsert lt x ys else x :: y :: ys

/-- Stable insertion sort; for a consistent comparator this computes the
same permutation as ES2019 `Array.prototype.sort`. -/
def stableSort (lt : α → α → Bool) : List α → List α
  | [] => []
  | x :: xs => stableInsert lt x (stableSort lt xs)

/-- The filtered-and-sorted candidate list of `selectModelForTier`. -/
def sortedSuitable (t : Tier) (availableModels : List Model) : List Model :=
  stableSort (fun a b => modelCmp t a b < 0) (suitableModels t availableModels)

/-- The `findIndex` predicate of the default pick:
`m.hasQuota !== false` (an absent `hasQuota` counts as quota-bearing). -/
def quotaOk (m : Model) : Bool := m.hasQuota ≠ some false

/-- JavaScript `Array.prototype.findIndex`: index of the first element
satisfying `p`, or `none` for `-1`. -/
def findIndexJS (p : α → Bool) : List α → Option Nat
  | [] => none
  | a :: as => if p a then some 0 else (findIndexJS p as).map (· + 1)

/-- The default selection index:
`defaultIndex = suitableModels.findIndex(m => m.hasQuota !== false) + 1 || 1`
followed by `index = parseInt(choice) - 1`; this is the resulting `index`
(`findIndex = -1` makes `defaultIndex` fall back to `1`, so `index = 0`). -/
def pickIndex (l : List Model) : Nat :=
  match findIndexJS quotaOk l with
  | some i => i
  | none => 0

/-- The function `selectModelForTier` of `onboard.js` on the default path: filter,
stable sort, pick `defaultIndex`; if the index is out of range (only
possible when the candidate list is empty) fall back to
`suitableModels[0]?.id || ALL_MODELS.find(m => m.tier === tier)?.id`. -/
def selectModelForTier (t : Tier) (availableModels : List Model) : Option String :=
  let s := sortedSuitable t availableModels
  let idx := pickIndex s
  if h : idx < s.length then some (s.get ⟨idx, h⟩).id
  else
    match s.head? with
    | some m => some m.id
    | none => (ALL_MODELS.find? (fun m => m.tier == t.name)).map Model.id

/-! ## Token refresh (`src/cli/refresh.js`) -/

/-- Account record as stored in the accounts document.  Every field may be
absent in the JSON, hence `Option`; `tokenExpiresAt` is the timestamp (ms)
the stored ISO-8601 string denotes. -/
structure Account where
  email : Option String := none
  accessToken : Option String := none
  refreshToken : Option String := none
  tokenExpiresAt : Option Int := none
  isInvalid : Option Bool := none
  invalidReason : Option String := none
deriving DecidableEq, Repr

/-- The persisted accounts document; the `accounts` key may be absent. -/
structure Store where
  accounts : Option (List Account) := none
deriving DecidableEq, Repr

/-- Abstract state of the config file on disk: absent, present but
unparsable, or present with a parsed document. -/
inductive FileState
  | missing
  | corrupt
  | content (doc : Store)
deriving DecidableEq

/-- The loader `loadAccounts` of `refresh.js`: `null` (here `none`) when the file does
not exist, `null` when `JSON.parse` throws (the `catch` branch), otherwise
the parsed document.  Total by construction: it never raises. -/
def loadAccounts : FileState → Option Store
  | .missing => none
  | .corrupt => none
  | .content doc => some doc

/-- The default refresh threshold: 5 minutes in milliseconds. -/
def DEFAULT_THRESHOLD_MS : Int := 5 * 60 * 1000

/-- The predicate `needsRefresh(account, thresholdMs)` with `Date.now()` made explicit:
`true` when `tokenExpiresAt` is absent, else `(expiresAt - now) < thresholdMs`.
A pure predicate by construction. -/
def needsRefresh (now : Int) (account : Account) (thresholdMs : Int) : Bool :=
  match account.tokenExpiresAt with
  | none => true
  | some expiresAt => decide (expiresAt - now < thresholdMs)

/-- Outcome of the external collaborator `refreshAccessToken`: a result
object, or a thrown error carrying a message. -/
inductive ExchangeResult
  | ok (accessToken : String) (expiresIn : Int)
  | err (message : String)
deriving DecidableEq, Repr

/-- Result object of `refreshAccount`: `{success:true, accessToken, expiresIn}`
or `{success:false, error}`. -/
inductive RefreshResult
  | ok (accessToken : String) (expiresIn : Int)
  | fail (error : String)
deriving DecidableEq, Repr

/-- The function `refreshAccount` of `refresh.js`, with the collaborator passed in.  The
second component counts the calls made to the collaborator (0 or 1). -/
def refreshAccount (exchange : String → ExchangeResult) (account : Account) :
    RefreshResult × Nat :=
  match account.refreshToken with
  | none => (.fail "No refresh token available", 0)
  | some rt =>
    match exchange rt with
    | .ok tok expiresIn => (.ok tok expiresIn, 1)
    | .err m => (.fail m, 1)

/-- Tests whether `pat` is a leading segment of `s` (character lists). -/
def leadsList (pat s : List Char) : Bool :=
  match pat, s with
  | [], _ => true
  | _ :: _, [] => false
  | p :: ps, c :: cs => p == c && leadsList ps cs

/-- Tests whether `pat` occurs contiguously somewhere in `s` (character lists). -/
def hasSubList (pat : List Char) : List Char → Bool
  | [] => pat.isEmpty
  | c :: cs => leadsList pat (c :: cs) || hasSubList pat cs

/-- JavaScript `s.includes(pat)`: contiguous substring test. -/
def strIncludes (s pat : String) : Bool := hasSubList pat.data s.data

/-- The caller-side terminal-failure classification of `runRefresh`:
`result.error.includes('invalid_grant') || result.error.includes('Bad Request')`. -/
def terminalError (e : String) : Bool :=
  strIncludes e "invalid_grant" || strIncludes e "Bad Request"

/-- What happened to one account in a run: the three tallies of the loop. -/
inductive Outcome
  | skipped
  | refreshed
  | failed (error : String)
deriving DecidableEq, Repr

/-- One loop iteration's effect: the (possibly mutated) account, the tally
outcome, and the display name used for the `invalidAccounts` list. -/
structure StepResult where
  account : Account
  outcome : Outcome
  display : String
deriving DecidableEq, Repr

/-- The display name `const email = account.email || ("Account " + (i + 1))`. -/
def displayEmail (i : Nat) (a : Account) : String :=
  a.email.getD ("Account " ++ toString (i + 1))

/-- One iteration of the `runRefresh` loop for `accounts[i]`: skip when
`!force && !needsRefresh(account)`; otherwise refresh and either install
the new token (clearing the invalid flags) or, on a terminal error, mark
the account invalid.  Transient failures leave the account untouched. -/
def processOne (now : Int) (force : Bool) (exchange : String → ExchangeResult)
    (i : Nat) (a : Account) : StepResult :=
  let email := displayEmail i a
  if !force && !needsRefresh now a DEFAULT_THRESHOLD_MS then
    ⟨a, .skipped, email⟩
  else
    match (refreshAccount exchange a).1 with
    | .ok tok expiresIn =>
      ⟨{ a with accessToken := some tok,
                tokenExpiresAt := some (now + expiresIn * 1000),
                isInvalid := some false,
                invalidReason := none },
        .refreshed, email⟩
    | .fail e =>
      if terminalError e then
        ⟨{ a with isInvalid := some true,
                  invalidReason := some "Refresh token expired or revoked" },
          .failed e, email⟩
      else
        ⟨a, .failed e, email⟩

/-- The `runRefresh` loop over `accounts[i], accounts[i+1], ...`. -/
def processList (now : Int) (force : Bool) (exchange : String → ExchangeResult) :
    Nat → List Account → List StepResult
  | _, [] => []
  | i, a :: rest =>
    processOne now force exchange i a :: processList now force exchange (i + 1) rest

/-- A step that pushed its display name onto `invalidAccounts`. -/
def isTerminalStep (r : StepResult) : Bool :=
  match r.outcome with
  | .failed e => terminalError e
  | _ => false

def isRefreshedO : Outcome → Bool
  | .refreshed => true
  | _ => false

def isFailedO : Outcome → Bool
  | .failed _ => true
  | _ => false

def isSkippedO : Outcome → Bool
  | .skipped => true
  | _ => false

/-- The value `runRefresh` returns.  The early no-accounts return in the
source is `{ refreshed: 0, failed: 0, skipped: 0 }` with no
`invalidAccounts` property, hence the `Option`. -/
structure RunStats where
  refreshed : Nat
  failed : Nat
  skipped : Nat
  invalidAccounts : Option (List String)
deriving DecidableEq, Repr

/-- Observable events of a run, in program order: one `processed i` per
loop iteration, and one `wrote s` per `saveAccounts(s)` call. -/
inductive Event
  | processed (i : Nat)
  | wrote (s : Store)
deriving DecidableEq, Repr

/-- Everything a run produces: the returned stats, the in-memory accounts
array after the loop, and the event trace. -/
structure RunOutput where
  stats : RunStats
  finalAccounts : List Account
  trace : List Event
deriving DecidableEq, Repr

/-- The orchestrator `runRefresh` of `refresh.js` with `Date.now()`, the collaborator and
the loaded config made explicit.  Early return (no config, no `accounts`
key, or zero accounts) performs no write; otherwise the loop runs over
every account and `saveAccounts` is called exactly once afterwards. -/
def runRefresh (now : Int) (force : Bool) (exchange : String → ExchangeResult)
    (config : Option Store) : RunOutput :=
  match config with
  | none => ⟨⟨0, 0, 0, none⟩, [], []⟩
  | some cfg =>
    match cfg.accounts with
    | none => ⟨⟨0, 0, 0, none⟩, [], []⟩
    | some accounts =>
      if accounts.isEmpty then ⟨⟨0, 0, 0, none⟩, [], []⟩
      else
        let steps := processList now force exchange 0 accounts
        let finalAccounts := steps.map StepResult.account
        let invalid := (steps.filter isTerminalStep).map StepResult.display
        ⟨⟨steps.countP (fun r => isRefreshedO r.outcome),
          steps.countP (fun r => isFailedO r.outcome),
          steps.countP (fun r => isSkippedO r.outcome),
          some invalid⟩,
         finalAccounts,
         (List.range accounts.length).map Event.processed
           ++ [Event.wrote { accounts := some finalAccounts }]⟩

/-! ## Scenario constants and claim-level properties -/

/-- The catalog of the C1 tier-substitution scenario. -/
def catX : List Model := [ { id := "x", tier := "sonnet", hasQuota := some true } ]

/-- The catalog of the C7 determinism scenario. -/
def catAB : List Model :=
  [ { id := "a", tier := "opus", hasQuota := some false },
    { id := "b", tier := "opus", hasQuota := some true } ]

/-- The terminal-failure mutation of the `runRefresh` loop:
`isInvalid = true`, `invalidReason = "Refresh token expired or revoked"`,
all other fields untouched. -/
def markInvalid (a : Account) : Account :=
  { a with isInvalid := some true, invalidReason := some "Refresh token expired or revoked" }

/-- The one-account refresh scenario of the spec's terminal-classification
test: an account with email `a@b` and a stored access token. -/
def acctA : Account :=
  { email := some "a@b", accessToken := some "old", refreshToken := some "r" }

/-- A collaborator whose exchange always fails with
`"invalid_grant: token revoked"`. -/
def exInvalidGrant : String → ExchangeResult :=
  fun _ => ExchangeResult.err "invalid_grant: token revoked"

/-- The account-level consequence of a terminal refresh failure inside a
run: position `i` of the persisted list is the original account with the
invalid flags set and its access token untouched, and the display email is
on the `invalidAccounts` list. -/
def TerminalMarked (now : Int) (force : Bool) (exchange : String → ExchangeResult)
    (l : List Account) (i : Nat) (em : String) : Prop :=
  ∀ a, l.get? i = some a →
    ∃ a2, (runRefresh now force exchange (some { accounts := some l })).finalAccounts.get? i
        = some a2 ∧
      a2.isInvalid = some true ∧
      a2.invalidReason = some "Refresh token expired or revoked" ∧
      a2.accessToken = a.accessToken ∧
      ∃ inv, (runRefresh now force exchange (some { accounts := some l })).stats.invalidAccounts
          = some inv ∧ em ∈ inv

/-- Projection selecting store-write events from a trace. -/
def wProj : Event → Option Store :=
  fun e => match e with
  | .wrote s => some s
  | .processed _ => none

/-- The sequence of store writes a trace contains, in order. -/
def writesOf (tr : List Event) : List Store := tr.filterMap wProj

/-- The single-write-after-full-sweep property of one `runRefresh` run:
the trace contains exactly one store write, whose content is the result of
processing every account, every write event comes after every
per-account processing event, and the trace contains one processing event
per account. -/
def RunPersistence (now : Int) (force : Bool) (exchange : String → ExchangeResult)
    (l : List Account) : Prop :=
  writesOf (runRefresh now force exchange (some { accounts := some l })).trace =
    [Store.mk (some ((processList now force exchange 0 l).map StepResult.account))] ∧
  (∀ (i k j : Nat) (st : Store),
    (runRefresh now force exchange (some { accounts := some l })).trace[i]? =
      some (Event.processed j) →
    (runRefresh now force exchange (some { accounts := some l })).trace[k]? =
      some (Event.wrote st) →
    i < k) ∧
  (∀ j, Event.processed j ∈ (runRefresh now force exchange (some { accounts := some l })).trace
    ↔ j < l.length)

/-- The successful-refresh mutation of the `runRefresh` loop. -/
def applyRefresh (now : Int) (a : Account) (tok : String) (ei : Int) : Account :=
  { a with accessToken := some tok, tokenExpiresAt := some (now + ei * 1000), isInvalid := some false, invalidReason := none }

/-- The second-run behavior of the idempotence scenario: the first run
refreshes every account, and an immediate second run over the persisted
accounts (at the same `now`) skips every account, changes nothing, and
writes back the same list. -/
def IdempotentSecondRun (now : Int) (exchange : String → ExchangeResult)
    (l : List Account) : Prop :=
  ∀ out1, out1 = runRefresh now false exchange (some { accounts := some l }) →
    out1.stats.refreshed = l.length ∧
    runRefresh now false exchange (some { accounts := some out1.finalAccounts }) =
      ⟨⟨0, 0, l.length, some []⟩, out1.finalAccounts,
        (List.range l.length).map Event.processed
          ++ [Event.wrote (Store.mk (some out1.finalAccounts))]⟩

/-- The account of the idempotence witness scenario: no stored expiry, so
the first run is obliged to refresh it. -/
def acctR : Account := { refreshToken := some "r" }

/-- A collaborator that always succeeds with a one-hour token. -/
def exOkLong : String → ExchangeResult := fun _ => ExchangeResult.ok "tok" 3600

/-- The per-run behavior of an account with no refresh token: its record
is written back unchanged, its step is never classified terminal (so it
never reaches `invalidAccounts` and is never marked invalid), it is tallied
as failed with reason "No refresh token available" whenever attempted, and
skipped otherwise. -/
def NoTokenPreserved (now : Int) (force : Bool) (exchange : String → ExchangeResult)
    (l : List Account) (i : Nat) : Prop :=
  ∀ a, l.get? i = some a →
    (runRefresh now force exchange (some { accounts := some l })).finalAccounts.get? i
      = some a ∧
    (∀ r, (processList now force exchange 0 l).get? i = some r →
      isTerminalStep r = false ∧
      r.account = a ∧
      ((force = true ∨ needsRefresh now a DEFAULT_THRESHOLD_MS = true) →
        r.outcome = Outcome.failed "No refresh token available") ∧
      (force = false → needsRefresh now a DEFAULT_THRESHOLD_MS = false →
        r.outcome = Outcome.skipped)) ∧
    ((force = true ∨ needsRefresh now a DEFAULT_THRESHOLD_MS = true) →
      0 < (runRefresh now force exchange (some { accounts := some l })).stats.failed) ∧
    (runRefresh now force exchange (some { accounts := some l })).stats.invalidAccounts =
      some (((processList now force exchange 0 l).filter isTerminalStep).map
        StepResult.display)

/-! ## Helper lemmas on the resolver -/

theorem findIndexJS_some {α : Type} {p : α → Bool} :
    ∀ {l : List α} {i : Nat}, findIndexJS p l = some i →
      ∃ h : i < l.length, l.find? p = some (l.get ⟨i, h⟩) := by
  intro l
  induction l with
  | nil => intro i h; simp [findIndexJS] at h
  | cons a as ih =>
    intro i h
    cases hp : p a with
    | true =>
      simp [findIndexJS, hp] at h
      subst h
      refine ⟨Nat.succ_pos _, ?_⟩
      rw [List.find?_cons_of_pos as hp]
      rfl
    | false =>
      simp [findIndexJS, hp] at h
      obtain ⟨j, hj, rfl⟩ := h
      obtain ⟨hlt, hfind⟩ := ih hj
      refine ⟨Nat.succ_lt_succ hlt, ?_⟩
      rw [List.find?_cons_of_neg as (by simp [hp]), hfind]
      rfl

theorem findIndexJS_none {α : Type} {p : α → Bool} :
    ∀ {l : List α}, findIndexJS p l = none → l.find? p = none := by
  intro l
  induction l with
  | nil => intro _; rfl
  | cons a as ih =>
    intro h
    cases hp : p a with
    | true => simp [findIndexJS, hp] at h
    | false =>
      simp [findIndexJS, hp] at h
      rw [List.find?_cons_of_neg as (by simp [hp])]
      exact ih h

/-- The default pick of `selectModelForTier` on a non-empty candidate list:
the first candidate passing the `findIndex` predicate, else the head. -/
theorem selectModelForTier_default (t : Tier) (models : List Model)
    (h : sortedSuitable t models ≠ []) :
    selectModelForTier t models =
      some ((((sortedSuitable t models).find? quotaOk).getD
        ((sortedSuitable t models).head h)).id) := by
  unfold selectModelForTier
  cases hf : findIndexJS quotaOk (sortedSuitable t models) with
  | some i =>
    obtain ⟨hlt, hfind⟩ := findIndexJS_some hf
    have hpi : pickIndex (sortedSuitable t models) = i := by
      simp [pickIndex, hf]
    simp only [hpi, dif_pos hlt, hfind, Option.getD_some]
  | none =>
    have hfind := findIndexJS_none hf
    have hpi : pickIndex (sortedSuitable t models) = 0 := by
      simp [pickIndex, hf]
    have h0 : 0 < (sortedSuitable t models).length := List.length_pos.mpr h
    simp only [hpi, dif_pos h0, hfind, Option.getD_none]
    simp only [List.get_eq_getElem]
    rw [List.getElem_zero h0]

theorem mem_stableInsert {α : Type} (lt : α → α → Bool) (x : α) :
    ∀ (l : List α) (a : α), a ∈ stableInsert lt x l ↔ a = x ∨ a ∈ l := by
  intro l
  induction l with
  | nil => intro a; simp [stableInsert]
  | cons y ys ih =>
    intro a
    by_cases hlt : lt y x = true
    · simp [stableInsert, hlt, ih, List.mem_cons]
      tauto
    · simp [stableInsert, hlt, List.mem_cons]

theorem mem_stableSort {α : Type} (lt : α → α → Bool) :
    ∀ (l : List α) (a : α), a ∈ stableSort lt l ↔ a ∈ l := by
  intro l
  induction l with
  | nil => intro a; simp [stableSort]
  | cons x xs ih =>
    intro a
    simp [stableSort, mem_stableInsert, ih, List.mem_cons]

theorem find?_congrP {α : Type} {p q : α → Bool} :
    ∀ {l : List α}, (∀ a ∈ l, p a = q a) → l.find? p = l.find? q := by
  intro l
  induction l with
  | nil => intro _; rfl
  | cons a as ih =>
    intro h
    have ha := h a (List.mem_cons_self a as)
    cases hp : p a with
    | true =>
      rw [List.find?_cons_of_pos _ hp, List.find?_cons_of_pos _ (ha ▸ hp)]
    | false =>
      rw [List.find?_cons_of_neg _ (by simp [hp]),
        List.find?_cons_of_neg _ (by simp [ha ▸ hp])]
      exact ih (fun b hb => h b (List.mem_cons_of_mem a hb))

/-- C1, counterexample: with the catalog holding only the sonnet entry
`"x"`, selecting for tier `haiku` returns `"x"` (the sonnet entry is one
tier above haiku, and the filter keeps every entry of rank ≥ rank(haiku) − 1
= 0), not the static fallback haiku entry as the claim states. -/
theorem claim_C1_counterexample :
    selectModelForTier Tier.haiku catX = some "x" ∧
    (some "x" : Option String) ≠ some "gemini-2.5-flash-lite" := by decide

/-- C1, amended: selecting for tier `opus` on the sonnet-only catalog
returns `"x"` (one tier below is acceptable), and selecting for tier
`haiku` also returns `"x"` (the entry is one tier above, and the filter
retains every catalog entry whose tier-rank is at least
rank(requested tier) − 1, which for haiku retains ranks ≥ 0, i.e.
everything); in general the filter step retains exactly the catalog
entries whose tier-rank (defaulting to 2 for unknown tiers) is at least
rank(requested tier) minus 1. -/
theorem claim_C1 :
    selectModelForTier Tier.opus catX = some "x" ∧
    selectModelForTier Tier.haiku catX = some "x" ∧
    ∀ (t : Tier) (models : List Model) (m : Model),
      m ∈ suitableModels t models ↔
        m ∈ models ∧ (tierPriority m.tier).getD 2 ≥ minTier t - 1 := by
  refine ⟨by decide, by decide, ?_⟩
  intro t models m
  simp [suitableModels, List.mem_filter]

/-- C7: for every catalog whose entries carry a boolean quota flag and
whose filtered candidate list is non-empty, the model selected by default
is the first entry with `hasQuota = true` after the stable sort, or the
first entry overall if none has quota; in particular, on the catalog
`[{a, opus, no-quota}, {b, opus, quota}]`, selecting for tier `opus`
returns `"b"`. -/
theorem claim_C7 :
    (∀ (t : Tier) (models : List Model),
      (∀ m ∈ models, m.hasQuota ≠ none) →
      ∀ hne : sortedSuitable t models ≠ [],
      selectModelForTier t models =
        some ((((sortedSuitable t models).find? (fun m => m.hasQuota == some true)).getD
          ((sortedSuitable t models).head hne)).id)) ∧
    selectModelForTier Tier.opus catAB = some "b" := by
  constructor
  · intro t models hq hne
    rw [selectModelForTier_default t models hne]
    have hcong : ∀ m ∈ sortedSuitable t models,
        quotaOk m = (m.hasQuota == some true) := by
      intro m hm
      have hmm : m ∈ models := by
        have h1 : m ∈ suitableModels t models :=
          (mem_stableSort _ _ m).mp hm
        exact (List.mem_filter.mp h1).1
      have hnn := hq m hmm
      cases hmo : m.hasQuota with
      | none => exact absurd hmo hnn
      | some b => cases b <;> simp [quotaOk, hmo]
    rw [find?_congrP hcong]
  · decide

/-- C7, witness: the general part of C7 applied to the concrete two-entry
opus catalog. -/
theorem claim_C7_witness :
    (∀ m ∈ catAB, m.hasQuota ≠ none) ∧
    sortedSuitable Tier.opus catAB ≠ [] ∧
    selectModelForTier Tier.opus catAB =
      some ((((sortedSuitable Tier.opus catAB).find? (fun m => m.hasQuota == some true)).getD
        ((sortedSuitable Tier.opus catAB).head (by decide))).id) :=
  ⟨by decide, by decide, claim_C7.1 Tier.opus catAB (by decide) (by decide)⟩

/-! ## Helper lemmas on the refresh loop -/

theorem processList_length (now : Int) (force : Bool)
    (exchange : String → ExchangeResult) :
    ∀ (i : Nat) (l : List Account),
      (processList now force exchange i l).length = l.length := by
  intro i l
  induction l generalizing i with
  | nil => rfl
  | cons a as ih => simp [processList, ih]

theorem processList_get? (now : Int) (force : Bool)
    (exchange : String → ExchangeResult) :
    ∀ (l : List Account) (i0 j : Nat),
      (processList now force exchange i0 l).get? j =
        (l.get? j).map (fun a => processOne now force exchange (i0 + j) a) := by
  intro l
  induction l with
  | nil => intro i0 j; cases j <;> rfl
  | cons a as ih =>
    intro i0 j
    cases j with
    | zero => simp [processList]
    | succ j' =>
      have h := ih (i0 + 1) j'
      simp only [processList, List.get?_cons_succ, h]
      have harith : i0 + 1 + j' = i0 + (j' + 1) := by omega
      rw [harith]

/-- Evaluating `runRefresh` on a non-empty account list takes the main path. -/
theorem runRefresh_main (now : Int) (force : Bool)
    (exchange : String → ExchangeResult) (l : List Account) (h : l ≠ []) :
    runRefresh now force exchange (some { accounts := some l }) =
      ⟨⟨(processList now force exchange 0 l).countP (fun r => isRefreshedO r.outcome),
        (processList now force exchange 0 l).countP (fun r => isFailedO r.outcome),
        (processList now force exchange 0 l).countP (fun r => isSkippedO r.outcome),
        some (((processList now force exchange 0 l).filter isTerminalStep).map
          StepResult.display)⟩,
       (processList now force exchange 0 l).map StepResult.account,
       (List.range l.length).map Event.processed
         ++ [Event.wrote (Store.mk
              (some ((processList now force exchange 0 l).map StepResult.account)))]⟩ := by
  have hne : l.isEmpty = false := by
    cases l with
    | nil => exact absurd rfl h
    | cons a as => rfl
  simp [runRefresh, hne]

/-- The skip guard is off exactly when `force` is set or a refresh is due. -/
theorem attempted_cond {force b : Bool} (h : force = true ∨ b = true) :
    (!force && !b) = false := by
  rcases h with h | h <;> simp [h]

/-! ## Claim C4 -/

/-- C4: `needsRefresh` is true when `tokenExpiresAt` is absent, and
otherwise true exactly when `tokenExpiresAt − now` is strictly below the
threshold, for every threshold ≥ 0 (the predicate is a pure function of
its arguments by construction, so it mutates nothing). -/
theorem claim_C4 :
    ∀ (now threshold : Int) (a : Account), 0 ≤ threshold →
      (a.tokenExpiresAt = none → needsRefresh now a threshold = true) ∧
      (∀ t, a.tokenExpiresAt = some t →
        (needsRefresh now a threshold = true ↔ t - now < threshold)) := by
  intro now threshold a _
  constructor
  · intro h
    simp [needsRefresh, h]
  · intro t h
    simp [needsRefresh, h]

/-- C4, witness: the characterization applied at a concrete account and
threshold. -/
theorem claim_C4_witness :
    (0 : Int) ≤ DEFAULT_THRESHOLD_MS ∧
    (({ tokenExpiresAt := some 100 } : Account).tokenExpiresAt = some 100) ∧
    (needsRefresh 0 { tokenExpiresAt := some 100 } DEFAULT_THRESHOLD_MS = true ↔
      (100 : Int) - 0 < DEFAULT_THRESHOLD_MS) :=
  ⟨by decide, rfl,
    (claim_C4 0 DEFAULT_THRESHOLD_MS { tokenExpiresAt := some 100 } (by decide)).2 100 rfl⟩

/-! ## Claim C9 -/

/-- C9, counterexample: for an account without a refresh token the failure
reason produced by the code is the capitalized string
`"No refresh token available"`, not `"no refresh token available"` as the
claim states (string comparison in this codebase is case-sensitive: the
terminal classification itself relies on exact substrings). -/
theorem claim_C9_counterexample :
    refreshAccount (fun _ => ExchangeResult.err "e") { refreshToken := none } =
      (RefreshResult.fail "No refresh token available", 0) ∧
    "No refresh token available" ≠ "no refresh token available" := by
  exact ⟨rfl, by decide⟩

/-- C9, amended: for every account with no `refreshToken`, `refreshAccount`
returns a failure result carrying the reason `"No refresh token available"`
(capital N) and performs zero calls to the external token-exchange
collaborator. -/
theorem claim_C9 :
    ∀ (exchange : String → ExchangeResult) (a : Account),
      a.refreshToken = none →
      refreshAccount exchange a = (RefreshResult.fail "No refresh token available", 0) := by
  intro exchange a h
  simp [refreshAccount, h]

/-- C9, witness: the amended claim applied to a concrete token-less
account. -/
theorem claim_C9_witness :
    ({ refreshToken := none } : Account).refreshToken = none ∧
    refreshAccount (fun _ => ExchangeResult.err "e") { refreshToken := none } =
      (RefreshResult.fail "No refresh token available", 0) :=
  ⟨rfl, claim_C9 (fun _ => ExchangeResult.err "e") { refreshToken := none } rfl⟩

/-! ## Claim C5 -/

/-- C5, counterexample: on a missing store file `loadAccounts` returns
`null` (`none`), not the default document `{accounts: []}`. -/
theorem claim_C5_counterexample :
    loadAccounts FileState.missing = none ∧
    (none : Option Store) ≠ some { accounts := some [] } := by
  exact ⟨rfl, by decide⟩

/-- C5, amended: `loadAccounts` returns the parsed document when the file
exists and parses, and returns `null` (`none`) when the file is missing or
corrupt; it never raises (it is total by construction).  The caller
`runRefresh` treats the `null` result identically to a store with zero
accounts. -/
theorem claim_C5 :
    loadAccounts FileState.missing = none ∧
    loadAccounts FileState.corrupt = none ∧
    (∀ d : Store, loadAccounts (FileState.content d) = some d) ∧
    (∀ (now : Int) (force : Bool) (exchange : String → ExchangeResult),
      runRefresh now force exchange (loadAccounts FileState.missing) =
        runRefresh now force exchange (some { accounts := some [] }) ∧
      runRefresh now force exchange (loadAccounts FileState.corrupt) =
        runRefresh now force exchange (some { accounts := some [] })) := by
  refine ⟨rfl, rfl, fun d => rfl, fun now force exchange => ⟨?_, ?_⟩⟩ <;> rfl

/-! ## Claim C6 -/

/-- C6, counterexample: with no store file the early return of `runRefresh`
is `{refreshed: 0, failed: 0, skipped: 0}` with no `invalidAccounts`
property at all (`none`), not an empty list. -/
theorem claim_C6_counterexample :
    (runRefresh 0 false (fun _ => ExchangeResult.err "e") none).stats.invalidAccounts
      = none ∧
    (none : Option (List String)) ≠ some [] := by
  exact ⟨rfl, by decide⟩

/-- C6, amended: when the store is missing, has no `accounts` key, or has
zero accounts, `runRefresh` returns only the three zero counts and the
`invalidAccounts` field is absent; on every run over at least one account
all four fields are present (`invalidAccounts` is some list). -/
theorem claim_C6 :
    ∀ (now : Int) (force : Bool) (exchange : String → ExchangeResult)
      (config : Option Store),
      ((config = none ∨ (∃ cfg, config = some cfg ∧ cfg.accounts = none) ∨
          (∃ cfg, config = some cfg ∧ cfg.accounts = some [])) →
        (runRefresh now force exchange config).stats =
          { refreshed := 0, failed := 0, skipped := 0, invalidAccounts := none }) ∧
      (∀ (cfg : Store) (l : List Account), config = some cfg → cfg.accounts = some l →
        l ≠ [] →
        ∃ inv, (runRefresh now force exchange config).stats.invalidAccounts = some inv) := by
  intro now force exchange config
  constructor
  · rintro (rfl | ⟨cfg, rfl, hacc⟩ | ⟨cfg, rfl, hacc⟩)
    · rfl
    · simp [runRefresh, hacc]
    · simp [runRefresh, hacc]
  · intro cfg l hc hacc hne
    have hcfg : cfg = ⟨some l⟩ := by
      cases cfg with
      | mk acc => cases hacc; rfl
    subst hc
    rw [hcfg, runRefresh_main now force exchange l hne]
    exact ⟨_, rfl⟩

/-- C6, witness: the empty-store case and a one-account case of the
amended claim. -/
theorem claim_C6_witness :
    (runRefresh 0 false (fun _ => ExchangeResult.err "e") none).stats =
      { refreshed := 0, failed := 0, skipped := 0, invalidAccounts := none } ∧
    ∃ inv, (runRefresh 0 false (fun _ => ExchangeResult.err "e")
        (some { accounts := some [{ email := some "a@b" }] })).stats.invalidAccounts
      = some inv :=
  ⟨(claim_C6 0 false (fun _ => ExchangeResult.err "e") none).1 (Or.inl rfl),
   (claim_C6 0 false (fun _ => ExchangeResult.err "e")
      (some { accounts := some [{ email := some "a@b" }] })).2
      { accounts := some [{ email := some "a@b" }] } [{ email := some "a@b" }]
      rfl rfl (by simp)⟩

/-! ## Claim C2 -/

theorem processOne_terminal (now : Int) (force : Bool)
    (exchange : String → ExchangeResult) (i : Nat) (a : Account) (e : String)
    (hatt : (!force && !needsRefresh now a DEFAULT_THRESHOLD_MS) = false)
    (hres : (refreshAccount exchange a).1 = RefreshResult.fail e)
    (hterm : terminalError e = true) :
    processOne now force exchange i a =
      ⟨markInvalid a, Outcome.failed e, displayEmail i a⟩ := by
  simp [processOne, hatt, hres, hterm, markInvalid]

/-- C2: for every account of the run whose refresh attempt fails with a
message containing `invalid_grant` or `Bad Request`, `runRefresh` marks
the account invalid with reason "Refresh token expired or revoked",
records its email in `invalidAccounts`, and leaves its access token
unchanged. -/
theorem claim_C2 :
    ∀ (now : Int) (force : Bool) (exchange : String → ExchangeResult)
      (l : List Account) (i : Nat) (a : Account) (e em : String),
      l.get? i = some a →
      (force = true ∨ needsRefresh now a DEFAULT_THRESHOLD_MS = true) →
      (refreshAccount exchange a).1 = RefreshResult.fail e →
      terminalError e = true →
      a.email = some em →
      TerminalMarked now force exchange l i em := by
  intro now force exchange l i a e em hget hatt hres hterm hem
  intro a0 hget0
  have ha0 : a0 = a := by
    rw [hget0] at hget
    exact Option.some.inj hget
  have hne : l ≠ [] := by
    intro hn
    subst hn
    simp at hget
  rw [runRefresh_main now force exchange l hne]
  have hstep : (processList now force exchange 0 l).get? i =
      some (processOne now force exchange i a) := by
    rw [processList_get? now force exchange l 0 i, hget]
    simp
  have hpo := processOne_terminal now force exchange i a e
    (attempted_cond hatt) hres hterm
  refine ⟨markInvalid a, ?_, rfl, rfl, ?_, ?_⟩
  · show ((processList now force exchange 0 l).map StepResult.account).get? i
        = some (markInvalid a)
    rw [List.get?_map, hstep, hpo]
    rfl
  · rw [ha0]
    rfl
  · refine ⟨_, rfl, ?_⟩
    have hmem : (⟨markInvalid a, Outcome.failed e, displayEmail i a⟩ : StepResult)
        ∈ processList now force exchange 0 l := by
      rw [← hpo]
      exact List.get?_mem hstep
    have hfil : (⟨markInvalid a, Outcome.failed e, displayEmail i a⟩ : StepResult)
        ∈ (processList now force exchange 0 l).filter isTerminalStep :=
      List.mem_filter.mpr ⟨hmem, by simp [isTerminalStep, hterm]⟩
    refine List.mem_map.mpr ⟨_, hfil, ?_⟩
    simp [displayEmail, hem]

/-- C2, witness: a one-account store whose refresh fails with
`"invalid_grant: token revoked"`. -/
theorem claim_C2_witness :
    ([acctA] : List Account).get? 0 = some acctA ∧
    (false = true ∨ needsRefresh 0 acctA DEFAULT_THRESHOLD_MS = true) ∧
    (refreshAccount exInvalidGrant acctA).1 =
      RefreshResult.fail "invalid_grant: token revoked" ∧
    terminalError "invalid_grant: token revoked" = true ∧
    acctA.email = some "a@b" ∧
    TerminalMarked 0 false exInvalidGrant [acctA] 0 "a@b" :=
  ⟨rfl, Or.inr rfl, rfl, by decide, rfl,
   claim_C2 0 false exInvalidGrant [acctA] 0 acctA "invalid_grant: token revoked" "a@b"
     rfl (Or.inr rfl) rfl (by decide) rfl⟩

/-! ## Claim C3 -/

theorem writesOf_processed : ∀ ns : List Nat, writesOf (ns.map Event.processed) = [] := by
  intro ns
  induction ns with
  | nil => rfl
  | cons n ns ih =>
    simp only [List.map_cons, writesOf, List.filterMap_cons] at ih ⊢
    exact ih

/-- C3: during one `runRefresh` invocation over a non-empty account list
the store is written exactly once, only after every account has been
processed, and the written document is the result of the complete sweep. -/
theorem claim_C3 :
    ∀ (now : Int) (force : Bool) (exchange : String → ExchangeResult)
      (l : List Account), l ≠ [] → RunPersistence now force exchange l := by
  intro now force exchange l hne
  unfold RunPersistence
  rw [runRefresh_main now force exchange l hne]
  refine ⟨?_, ?_, ?_⟩
  · show writesOf ((List.range l.length).map Event.processed ++ [Event.wrote _]) = _
    simp only [writesOf, List.filterMap_append]
    rw [show ((List.range l.length).map Event.processed).filterMap wProj = []
      from writesOf_processed (List.range l.length)]
    rfl
  · intro i k j st hpi hwk
    have hlen : ((List.range l.length).map Event.processed).length = l.length := by simp
    have hk : l.length ≤ k := by
      by_contra hklt
      push_neg at hklt
      have hklt2 : k < ((List.range l.length).map Event.processed).length := by
        rw [hlen]
        exact hklt
      rw [List.getElem?_append_left hklt2, List.getElem?_map] at hwk
      have hrk : (List.range l.length)[k]? = some k := by simp [hklt]
      rw [hrk] at hwk
      simp at hwk
    have hi2 : i < l.length := by
      by_contra hige
      push_neg at hige
      have hige2 : ((List.range l.length).map Event.processed).length ≤ i := by
        rw [hlen]
        exact hige
      rw [List.getElem?_append_right hige2] at hpi
      rcases Nat.lt_or_ge (i - ((List.range l.length).map Event.processed).length) 1 with hz | hp
      · have hz0 : i - ((List.range l.length).map Event.processed).length = 0 :=
          Nat.lt_one_iff.mp hz
        rw [hz0] at hpi
        simp at hpi
      · rw [List.getElem?_eq_none (by simpa using hp)] at hpi
        simp at hpi
    exact Nat.lt_of_lt_of_le hi2 hk
  · intro j
    simp [List.mem_append, List.mem_map, List.mem_range]

/-- C3, witness: the persistence property on a concrete one-account
store. -/
theorem claim_C3_witness :
    ([acctA] : List Account) ≠ [] ∧ RunPersistence 0 false exInvalidGrant [acctA] :=
  ⟨by simp, claim_C3 0 false exInvalidGrant [acctA] (by simp)⟩

/-! ## Claim C8 -/

theorem processOne_skip (now : Int) (exchange : String → ExchangeResult)
    (i : Nat) (a : Account)
    (h : needsRefresh now a DEFAULT_THRESHOLD_MS = false) :
    processOne now false exchange i a = ⟨a, Outcome.skipped, displayEmail i a⟩ := by
  simp [processOne, h]

theorem processOne_refresh_ok (now : Int) (exchange : String → ExchangeResult)
    (i : Nat) (a : Account) (rt tok : String) (ei : Int)
    (hn : needsRefresh now a DEFAULT_THRESHOLD_MS = true)
    (hrt : a.refreshToken = some rt)
    (hex : exchange rt = ExchangeResult.ok tok ei) :
    processOne now false exchange i a =
      ⟨applyRefresh now a tok ei, Outcome.refreshed, displayEmail i a⟩ := by
  simp [processOne, hn, refreshAccount, hrt, hex, applyRefresh]

theorem processList_all_refreshed (now : Int) (exchange : String → ExchangeResult)
    (hx : ∀ rt, ∃ tok ei, exchange rt = ExchangeResult.ok tok ei ∧ 300 < ei) :
    ∀ (l : List Account),
      (∀ a ∈ l, ∃ rt, a.refreshToken = some rt) →
      (∀ a ∈ l, needsRefresh now a DEFAULT_THRESHOLD_MS = true) →
      ∀ i r, r ∈ processList now false exchange i l →
        r.outcome = Outcome.refreshed ∧
        ∃ ei : Int, 300 < ei ∧ r.account.tokenExpiresAt = some (now + ei * 1000) := by
  intro l
  induction l with
  | nil =>
    intro _ _ i r hmem
    simp [processList] at hmem
  | cons a as ih =>
    intro hr hn i r hmem
    simp only [processList, List.mem_cons] at hmem
    rcases hmem with rfl | hmem
    · obtain ⟨rt, hrt⟩ := hr a (List.mem_cons_self a as)
      obtain ⟨tok, ei, hex, hei⟩ := hx rt
      rw [processOne_refresh_ok now exchange i a rt tok ei
        (hn a (List.mem_cons_self a as)) hrt hex]
      exact ⟨rfl, ei, hei, rfl⟩
    · exact ih (fun b hb => hr b (List.mem_cons_of_mem a hb))
        (fun b hb => hn b (List.mem_cons_of_mem a hb)) (i + 1) r hmem

theorem processList_all_skipped (now : Int) (exchange : String → ExchangeResult) :
    ∀ (l : List Account),
      (∀ a ∈ l, needsRefresh now a DEFAULT_THRESHOLD_MS = false) →
      ∀ i, (processList now false exchange i l).map StepResult.account = l ∧
        ∀ r ∈ processList now false exchange i l, r.outcome = Outcome.skipped := by
  intro l
  induction l with
  | nil =>
    intro _ i
    exact ⟨rfl, by intro r hmem; simp [processList] at hmem⟩
  | cons a as ih =>
    intro h i
    have ha := h a (List.mem_cons_self a as)
    have ih2 := ih (fun b hb => h b (List.mem_cons_of_mem a hb)) (i + 1)
    constructor
    · simp only [processList, List.map_cons, processOne_skip now exchange i a ha, ih2.1]
    · intro r hmem
      simp only [processList, List.mem_cons, processOne_skip now exchange i a ha] at hmem
      rcases hmem with rfl | hmem
      · rfl
      · exact ih2.2 r hmem

/-- C8: starting from a non-empty store in which every account is due and
every exchange succeeds with a token valid for more than the 5-minute
threshold, the first `runRefresh({force:false})` refreshes every account,
and a second call with no elapsed time reports
`skipped = total, refreshed = 0, failed = 0` and mutates no account. -/
theorem claim_C8 :
    ∀ (now : Int) (exchange : String → ExchangeResult) (l : List Account),
      l ≠ [] →
      (∀ rt, ∃ tok ei, exchange rt = ExchangeResult.ok tok ei ∧ 300 < ei) →
      (∀ a ∈ l, ∃ rt, a.refreshToken = some rt) →
      (∀ a ∈ l, needsRefresh now a DEFAULT_THRESHOLD_MS = true) →
      IdempotentSecondRun now exchange l := by
  intro now exchange l hne hx hr hn
  intro out1 hout1
  subst hout1
  rw [runRefresh_main now false exchange l hne]
  set l2 := (processList now false exchange 0 l).map StepResult.account with hl2
  have hlen2 : l2.length = l.length := by
    rw [hl2, List.length_map, processList_length]
  have hne2 : l2 ≠ [] := by
    intro h0
    rw [h0] at hlen2
    exact hne (List.length_eq_zero.mp hlen2.symm)
  constructor
  · show (processList now false exchange 0 l).countP (fun r => isRefreshedO r.outcome)
        = l.length
    rw [← processList_length now false exchange 0 l, List.countP_eq_length]
    intro r hmem
    have h1 := (processList_all_refreshed now exchange hx l hr hn 0 r hmem).1
    simp [h1, isRefreshedO]
  · show runRefresh now false exchange (some { accounts := some l2 }) = _
    have hskip : ∀ a ∈ l2, needsRefresh now a DEFAULT_THRESHOLD_MS = false := by
      intro a2 ha2
      rw [hl2] at ha2
      obtain ⟨r, hrmem, hracc⟩ := List.mem_map.mp ha2
      obtain ⟨-, ei, hei, htok⟩ :=
        processList_all_refreshed now exchange hx l hr hn 0 r hrmem
      rw [← hracc]
      simp only [needsRefresh, htok]
      rw [decide_eq_false_iff_not]
      simp only [DEFAULT_THRESHOLD_MS]
      omega
    obtain ⟨hmap2, hout2⟩ := processList_all_skipped now exchange l2 hskip 0
    rw [runRefresh_main now false exchange l2 hne2]
    have hc1 : (processList now false exchange 0 l2).countP
        (fun r => isRefreshedO r.outcome) = 0 := by
      rw [List.countP_eq_zero]
      intro r hmem
      simp [hout2 r hmem, isRefreshedO]
    have hc2 : (processList now false exchange 0 l2).countP
        (fun r => isFailedO r.outcome) = 0 := by
      rw [List.countP_eq_zero]
      intro r hmem
      simp [hout2 r hmem, isFailedO]
    have hc3 : (processList now false exchange 0 l2).countP
        (fun r => isSkippedO r.outcome) = l.length := by
      have hst : (processList now false exchange 0 l2).length = l.length := by
        rw [processList_length]
        exact hlen2
      rw [← hst, List.countP_eq_length]
      intro r hmem
      simp [hout2 r hmem, isSkippedO]
    have hfil : (processList now false exchange 0 l2).filter isTerminalStep = [] := by
      rw [List.filter_eq_nil_iff]
      intro r hmem
      simp [isTerminalStep, hout2 r hmem]
    rw [hc1, hc2, hc3, hfil, hmap2, hlen2]
    rfl

/-- C8, witness: the idempotence property on a concrete one-account
store. -/
theorem claim_C8_witness :
    (([acctR] : List Account) ≠ []) ∧
    (∀ rt, ∃ tok ei, exOkLong rt = ExchangeResult.ok tok ei ∧ (300 : Int) < ei) ∧
    (∀ a ∈ ([acctR] : List Account), ∃ rt, a.refreshToken = some rt) ∧
    (∀ a ∈ ([acctR] : List Account), needsRefresh 0 a DEFAULT_THRESHOLD_MS = true) ∧
    IdempotentSecondRun 0 exOkLong [acctR] :=
  ⟨by simp,
   fun _ => ⟨"tok", 3600, rfl, by decide⟩,
   fun a ha => ⟨"r", by rw [List.mem_singleton] at ha; subst ha; rfl⟩,
   fun a ha => by rw [List.mem_singleton] at ha; subst ha; rfl,
   claim_C8 0 exOkLong [acctR] (by simp)
     (fun _ => ⟨"tok", 3600, rfl, by decide⟩)
     (fun a ha => ⟨"r", by rw [List.mem_singleton] at ha; subst ha; rfl⟩)
     (fun a ha => by rw [List.mem_singleton] at ha; subst ha; rfl)⟩

/-! ## Claim C10 -/

/-- The failure reason of a token-less account never matches the terminal
substrings. -/
theorem noToken_not_terminal : terminalError "No refresh token available" = false := by
  decide

theorem processOne_noToken_attempted (now : Int) (force : Bool)
    (exchange : String → ExchangeResult) (i : Nat) (a : Account)
    (h : a.refreshToken = none)
    (hatt : (!force && !needsRefresh now a DEFAULT_THRESHOLD_MS) = false) :
    processOne now force exchange i a =
      ⟨a, Outcome.failed "No refresh token available", displayEmail i a⟩ := by
  simp [processOne, hatt, refreshAccount, h, noToken_not_terminal]

theorem processOne_guarded (now : Int) (force : Bool)
    (exchange : String → ExchangeResult) (i : Nat) (a : Account)
    (hatt : (!force && !needsRefresh now a DEFAULT_THRESHOLD_MS) = true) :
    processOne now force exchange i a = ⟨a, Outcome.skipped, displayEmail i a⟩ := by
  simp [processOne, hatt]

/-- C10, counterexample: an account with no refresh token whose stored
token is far from expiry is skipped, not failed, so it is not counted in
`failed` on such a run. -/
theorem claim_C10_counterexample :
    (runRefresh 0 false exInvalidGrant
      (some { accounts := some [{ refreshToken := none, tokenExpiresAt := some 999999999 }] })).stats.failed = 0 ∧
    (runRefresh 0 false exInvalidGrant
      (some { accounts := some [{ refreshToken := none, tokenExpiresAt := some 999999999 }] })).stats.skipped = 1 := by
  exact ⟨by decide, by decide⟩

/-- C10, amended: an account with no `refreshToken` is counted in `failed`
on every run in which it is attempted (`force` set or refresh due), with
the non-terminal reason "No refresh token available"; it is skipped when
not attempted; in every run it is never marked invalid, never contributes
to `invalidAccounts`, and its record is persisted unchanged. -/
theorem claim_C10 :
    ∀ (now : Int) (force : Bool) (exchange : String → ExchangeResult)
      (l : List Account) (i : Nat) (a : Account),
      l.get? i = some a →
      a.refreshToken = none →
      NoTokenPreserved now force exchange l i := by
  intro now force exchange l i a hget hrt
  intro a0 hget0
  have ha0 : a0 = a := by
    rw [hget0] at hget
    exact Option.some.inj hget
  subst ha0
  have hne : l ≠ [] := by
    intro hn
    subst hn
    simp at hget
  have hstep : (processList now force exchange 0 l).get? i =
      some (processOne now force exchange i a0) := by
    rw [processList_get? now force exchange l 0 i, hget0]
    simp
  rw [runRefresh_main now force exchange l hne]
  cases hc : (!force && !needsRefresh now a0 DEFAULT_THRESHOLD_MS) with
  | true =>
    have hpo := processOne_guarded now force exchange i a0 hc
    have hnoatt : ¬(force = true ∨ needsRefresh now a0 DEFAULT_THRESHOLD_MS = true) := by
      intro hor
      rw [attempted_cond hor] at hc
      cases hc
    refine ⟨?_, ?_, ?_, rfl⟩
    · show ((processList now force exchange 0 l).map StepResult.account).get? i = some a0
      rw [List.get?_map, hstep, hpo]
      rfl
    · intro r hr
      rw [hstep, hpo] at hr
      have hr2 := Option.some.inj hr
      subst hr2
      refine ⟨rfl, rfl, fun hor => absurd hor hnoatt, fun _ _ => rfl⟩
    · intro hor
      exact absurd hor hnoatt
  | false =>
    have hpo := processOne_noToken_attempted now force exchange i a0 hrt hc
    refine ⟨?_, ?_, ?_, rfl⟩
    · show ((processList now force exchange 0 l).map StepResult.account).get? i = some a0
      rw [List.get?_map, hstep, hpo]
      rfl
    · intro r hr
      rw [hstep, hpo] at hr
      have hr2 := Option.some.inj hr
      subst hr2
      refine ⟨noToken_not_terminal, rfl, fun _ => rfl, ?_⟩
      intro hforce hneed
      rw [hforce, hneed] at hc
      cases hc
    · intro _
      show 0 < (processList now force exchange 0 l).countP (fun r => isFailedO r.outcome)
      rw [List.countP_pos_iff]
      refine ⟨_, List.get?_mem hstep, ?_⟩
      rw [hpo]
      rfl

/-- C10, witness: the amended claim applied to a concrete token-less
account. -/
theorem claim_C10_witness :
    (([{ refreshToken := none, tokenExpiresAt := some 999999999 }] : List Account).get? 0
      = some { refreshToken := none, tokenExpiresAt := some 999999999 }) ∧
    ({ refreshToken := none, tokenExpiresAt := some 999999999 } : Account).refreshToken
      = none ∧
    NoTokenPreserved 0 false exInvalidGrant
      [{ refreshToken := none, tokenExpiresAt := some 999999999 }] 0 :=
  ⟨rfl, rfl,
   claim_C10 0 false exInvalidGrant
     [{ refreshToken := none, tokenExpiresAt := some 999999999 }] 0
     { refreshToken := none, tokenExpiresAt := some 999999999 } rfl rfl⟩
